import Mathlib

/-!
Verification development for `gimbo.py`, a batch tool that merges Alfred
emoji snippet collections: it unpacks each `*.alfredsnippets` zip, tweaks
every JSON snippet record (keyword un-wrapping, rule-table driven removal or
renaming, display-name rewriting), records every keyword and name in two
global clash indexes, moves all surviving record files into one merged
directory (failing hard on a filename collision), patches `info.plist`, and
zips the result.

Strings are modelled as `List Char` (`Str`), which matches Python's
character-sequence semantics and keeps proofs by induction tractable.
Filesystem effects are modelled by explicit data flow: a working directory
is the list of the record files it holds, the two global `defaultdict(list)`
accumulators are explicit state threaded through the per-record transformer.
-/

set_option maxRecDepth 4096

abbrev Str := List Char

/-- A snippet record, from the `Snippet` dataclass: source collection name,
payload text, unique id, display name and trigger keyword. -/
structure Snippet where
  collection : Str
  snippet : Str
  uid : Str
  name : Str
  keyword : Str
deriving DecidableEq, Repr

/-!
### Keyword un-wrapping

`tweak_snippet` starts with `re.sub(r'^:(.+):$', r'\1', snippet.keyword)`.
In Python's (non-MULTILINE) regex semantics: `^` anchors at position 0,
`.` does not match a newline, `+` needs at least one character, and `$`
matches at the end of the string or just before one final trailing newline.
`re.sub` therefore removes a leading and a trailing colon exactly when the
keyword is `:` + mid + `:` (optionally followed by one final newline, which
survives) with mid nonempty and newline-free.
-/

/-- Core of the keyword strip: `body` is the keyword with one trailing
newline (if any) removed, `tl` that removed newline, `s` the original
keyword to return on no-match. -/
def stripCore (body tl s : Str) : Str :=
  match body with
  | ':' :: rest =>
    if rest.getLast? = some ':' ∧ 2 ≤ rest.length ∧ '\n' ∉ rest.dropLast then
      rest.dropLast ++ tl
    else s
  | _ => s

/-- `re.sub(r'^:(.+):$', r'\1', s)` from `tweak_snippet`. -/
def stripKeyword (s : Str) : Str :=
  if s.getLast? = some '\n' then stripCore s.dropLast ['\n'] s else stripCore s [] s

/-!
### Collection label derivation

`snippet.collection.replace('[Emoji] ', '').replace('.alfredsnippets', '')`.
Python's `str.replace` substitutes every non-overlapping occurrence,
scanning left to right and resuming after each replacement.
-/

/-- The scan of Python's `str.replace pat rep` for a nonempty `pat`:
replace every non-overlapping occurrence, scanning left to right and
resuming after each replacement.  `fuel` only bounds the recursion: every
step consumes at least one character, so the wrapper's `length + 1` never
runs out. -/
def replaceAllScan (pat rep : Str) : Nat → Str → Str
  | 0, s => s
  | _ + 1, [] => []
  | f + 1, c :: cs =>
    if pat ≠ [] ∧ pat.isPrefixOf (c :: cs) then
      rep ++ replaceAllScan pat rep f ((c :: cs).drop pat.length)
    else
      c :: replaceAllScan pat rep f cs

/-- Python's `str.replace pat rep` (for the nonempty patterns used here). -/
def replaceAll (pat rep s : Str) : Str := replaceAllScan pat rep (s.length + 1) s

/-- Substring test matching the scan of `replaceAll`. -/
def containsSub (pat : Str) : Str → Bool
  | [] => pat.isEmpty
  | c :: cs => pat.isPrefixOf (c :: cs) || containsSub pat cs

/-- The short collection label of line 190 of `gimbo.py`:
strip the `[Emoji] ` marker and the `.alfredsnippets` extension. -/
def collectionLabel (c : Str) : Str :=
  replaceAll (".alfredsnippets").toList [] (replaceAll ("[Emoji] ").toList [] c)

/-!
### Rule table
-/

/-- The `SNIPPET_ACTIONS` dict: `(collection, uid)` keyed actions, each the
string `'remove'` or `'rename:new-keyword:new-name'`. -/
def SNIPPET_ACTIONS : List ((Str × Str) × Str) := [
  ((("[Emoji] Activity.alfredsnippets").toList, ("DB104057-67D9-464E-87A7-E5C6A5C9E83F").toList),
    ("remove").toList),
  ((("[Emoji] Activity.alfredsnippets").toList, ("2CB14D66-8A2C-490E-B5BC-497C719BDE0D").toList),
    ("remove").toList),
  ((("[Emoji] Activity.alfredsnippets").toList, ("73D962B3-0883-46DB-BF17-7886E0E0D6BE").toList),
    ("remove").toList),
  ((("[Emoji] Aliases.alfredsnippets").toList, ("1EFA2E1A-FC94-4E9E-8CA6-CCD9881F8EDB").toList),
    ("remove").toList),
  ((("[Emoji] Aliases.alfredsnippets").toList, ("382C5551-7790-438B-B0DD-7D5085AE7562").toList),
    ("remove").toList),
  ((("[Emoji] Aliases.alfredsnippets").toList, ("F5246F75-8B74-4A1C-A546-EA13B904CB80").toList),
    ("remove").toList),
  ((("[Emoji] Food and Drink.alfredsnippets").toList, ("21C550E1-8B7C-4C41-91FB-6A8FB11805DB").toList),
    ("remove").toList),
  ((("[Emoji] Food and Drink.alfredsnippets").toList, ("A7D1C140-433A-4CB5-9D08-0E039673A514").toList),
    ("remove").toList),
  ((("[Emoji] Objects.alfredsnippets").toList, ("E5539CBF-8C94-4E63-A76F-28F5BB9A778D").toList),
    ("remove").toList),
  ((("[Emoji] Symbols.alfredsnippets").toList, ("E7A892D4-EC10-4CEB-8FA4-DF406E69C24A").toList),
    ("remove").toList),
  ((("[Emoji] Symbols.alfredsnippets").toList, ("746F2037-7C6A-4C6D-95B7-3E202A2EFD2B").toList),
    ("remove").toList),
  ((("[Emoji] Travel and Places.alfredsnippets").toList, ("E7AFDB70-D184-4550-9DAF-AFC7F17AA1E2").toList),
    ("remove").toList),
  ((("[Emoji] Aliases.alfredsnippets").toList, ("7BBB3467-E963-4563-A24F-5ADB2A7134E3").toList),
    ("rename:space-invader:Space Invader").toList),
  ((("[Emoji] Aliases.alfredsnippets").toList, ("4E959109-F9A1-471A-BE3E-E9F2FB91B923").toList),
    ("rename:ng:No Good (block)").toList),
  ((("[Emoji] Weather.alfredsnippets").toList, ("17D5AB5B-7EE4-44AF-BDC6-52A1B0330DF7").toList),
    ("rename:shoting-star-block:Shooting Star (block)").toList)
]

/-- `SNIPPET_ACTIONS.get((collection, uid))`: dict lookup (the literal's keys
are distinct, so first-match search agrees with dict semantics). -/
def lookupAction (c u : Str) : Option Str :=
  (SNIPPET_ACTIONS.find? (fun e => e.1.1 == c && e.1.2 == u)).map Prod.snd

/-- `'k:n'.split(':')` used by the rename branch (Python `str.split` on a
single-character separator, keeping empty fields). -/
def splitOnColon : Str → List Str
  | [] => [[]]
  | c :: cs =>
    if c = ':' then [] :: splitOnColon cs
    else
      match splitOnColon cs with
      | [] => [[c]]
      | h :: t => (c :: h) :: t

/-!
### Transformer
-/

/-- The two process-wide accumulators `SNIPPETS_BY_KEYWORD` and
`SNIPPETS_BY_NAME`, kept as journals of (key, snippet) insertions in
insertion order (a `defaultdict(list)` append per registration). -/
structure GState where
  byKeyword : List (Str × Snippet)
  byName : List (Str × Snippet)
deriving DecidableEq, Repr

/-- Line 191's f-string `'Emoji | {collection} | {snippet.name} | {snippet.keyword}'`. -/
def mkFinalName (label nm kw : Str) : Str :=
  ("Emoji | ").toList ++ label ++ (" | ").toList ++ nm ++ (" | ").toList ++ kw

/-- Lines 188-191 of `tweak_snippet`: register the surviving record in both
indexes, then rewrite its display name.  Python appends the record object
*before* mutating its name, so the journal keys are the pre-rewrite keyword
and name while the stored value is the final (renamed) record — the same
aliased object. -/
def registerAndRename (st : GState) (s : Snippet) : GState × Option Snippet :=
  let s' := { s with name := mkFinalName (collectionLabel s.collection) s.name s.keyword }
  (⟨st.byKeyword ++ [(s.keyword, s')], st.byName ++ [(s.name, s')]⟩, some s')

/-- `tweak_snippet`: strip the keyword wrapper, consult the rule table,
remove (`none`) or rename, register the survivor and rewrite its name.
The lookup key `(snippet.collection, snippet.uid)` is written with the
input record's fields: the preceding keyword strip does not touch them.
A malformed `rename:` action whose payload does not split into exactly two
fields raises `ValueError` in Python's tuple unpacking (`.error`). -/
def tweakSnippet (st : GState) (s : Snippet) : Except Str (GState × Option Snippet) :=
  let s1 := { s with keyword := stripKeyword s.keyword }
  match lookupAction s.collection s.uid with
  | some act =>
    if act = ("remove").toList then .ok (st, none)
    else if ("rename:").toList.isPrefixOf act then
      match splitOnColon (act.drop 7) with
      | [kw, nm] => .ok (registerAndRename st { s1 with keyword := kw, name := nm })
      | _ => .error ("ValueError: not enough or too many values to unpack").toList
    else .ok (registerAndRename st s1)
  | none => .ok (registerAndRename st s1)

/-- The observable steps of `tweak_snippet`, in the statement order of the
source (line 181 keyword strip, line 182 table lookup, lines 184-187 rule
application, lines 188-189 index registration, lines 190-191 name rewrite).
A branch that returns early (removal, or a `ValueError` while unpacking a
malformed rename) cuts the trace short, exactly as control flow does. -/
inductive TweakStep where
  | stripKeyword
  | ruleLookup
  | applyRule
  | register
  | rewriteName
deriving DecidableEq, Repr

/-- Step trace of `tweak_snippet` on one record. -/
def tweakSteps (s : Snippet) : List TweakStep :=
  match lookupAction s.collection s.uid with
  | some act =>
    if act = ("remove").toList then [.stripKeyword, .ruleLookup]
    else if ("rename:").toList.isPrefixOf act then
      match splitOnColon (act.drop 7) with
      | [_, _] => [.stripKeyword, .ruleLookup, .applyRule, .register, .rewriteName]
      | _ => [.stripKeyword, .ruleLookup, .applyRule]
    else [.stripKeyword, .ruleLookup, .register, .rewriteName]
  | none => [.stripKeyword, .ruleLookup, .register, .rewriteName]

/-!
### Collection processor

`process_snippet` parses a record file (the record's `collection` is set to
the name of the directory the file sits in), tweaks it, and either unlinks
the file (removal) or overwrites it with the tweaked record.  A directory is
processed file by file; the surviving files (in order) are what remains in
the working directory.  Files are given here as (filename, parsed record)
pairs; parsing and serialization of the JSON text itself are modelled
separately below (`fromJson`/`toJsonText`) and proved to round-trip.
-/

/-- `process_snippet` on one file of directory `dirName`. -/
def processSnippet (st : GState) (dirName fname : Str) (s : Snippet) :
    Except Str (GState × Option (Str × Snippet)) :=
  match tweakSnippet st { s with collection := dirName } with
  | .error e => .error e
  | .ok (st', none) => .ok (st', none)
  | .ok (st', some s') => .ok (st', some (fname, s'))

/-- The per-file loop of `extract_and_process_snippets`: thread the global
state left to right, keep the surviving files. -/
def processDir (st : GState) (dirName : Str) :
    List (Str × Snippet) → Except Str (GState × List (Str × Snippet))
  | [] => .ok (st, [])
  | (fn, sn) :: fs =>
    match processSnippet st dirName fn sn with
    | .error e => .error e
    | .ok (st', none) => processDir st' dirName fs
    | .ok (st', some kept) =>
      match processDir st' dirName fs with
      | .error e => .error e
      | .ok (st'', rest) => .ok (st'', kept :: rest)

/-!
### Aggregator

`collect_and_compress_to_new_single_snippetfile` lists the worked
directories (before creating the merged one, so the merged directory is not
among them), moves every `*.json` record into the fresh merged directory —
raising `ValueError(snippet)` if the destination filename already exists —
copies the icon, moves `collections[0] / 'info.plist'` over (an
`IndexError` when there are no collections), patches it, and zips the
merged directory.  A working directory is modelled by its name, its record
filenames, and its `info.plist` text; the icon copy is a fixed file that is
out of scope of any claim and always succeeds here.
-/

structure WorkDir where
  name : Str
  snippets : List Str
  infoPlist : Str
deriving DecidableEq, Repr

inductive RunError where
  /-- `ValueError(snippet)` from the destination-exists check: the directory
  and filename of the offending record file. -/
  | collision (dir : Str) (file : Str)
  /-- `IndexError` from `collections[0]` when the workspace holds no
  collection directories. -/
  | indexError
deriving DecidableEq, Repr

/-- The merged final archive: its record entries (by arcname) and the
patched `info.plist` text. -/
structure FinalArchive where
  snippetNames : List Str
  infoPlist : Str
deriving DecidableEq, Repr

/-- Inner loop of the aggregator for one collection directory: move each
record file into the merged set `acc`, failing on an existing destination. -/
def addSnippets (dirName : Str) (acc : List Str) : List Str → Except RunError (List Str)
  | [] => .ok acc
  | n :: ns =>
    if n ∈ acc then .error (.collision dirName n)
    else addSnippets dirName (acc ++ [n]) ns

/-- Outer loop of the aggregator over all collection directories. -/
def gatherAll (acc : List Str) : List WorkDir → Except RunError (List Str)
  | [] => .ok acc
  | d :: ds =>
    match addSnippets d.name acc d.snippets with
    | .error e => .error e
    | .ok acc' => gatherAll acc' ds

/-!
### `info.plist` patch

`tweak_info_plist` rewrites the text with
`re.sub(pat, r'\1' + prefix + r'\2' + suffix + r'\3', text, flags=re.MULTILINE)`
where `pat` is
`(^\s+<key>snippetkeywordprefix</key>\n\s+<string>)(</string>\n\s+<key>snippetkeywordsuffix</key>\n\s+<string>)(</string>)`.
With MULTILINE, `^` matches at position 0 or right after any newline.  Each
`\s+` is followed by a literal beginning with the non-whitespace `<`, so the
greedy match is simply the maximal whitespace run (nonempty).  `\s` is
modelled by its ASCII cases (space, tab, newline, carriage return, vertical
tab, form feed), the whitespace found in plist files.  When the pattern is
absent, `re.sub` returns the text unchanged and no error is raised.
-/

def isPlistWs (c : Char) : Bool :=
  c = ' ' || c = '\t' || c = '\n' || c = '\r' || c = '\x0b' || c = '\x0c'

/-- Split a nonempty maximal whitespace run off the front (`\s+`). -/
def dropWsPlus (s : Str) : Option (Str × Str) :=
  let ws := s.takeWhile isPlistWs
  if ws.isEmpty then none else some (ws, s.dropWhile isPlistWs)

/-- Consume a literal. -/
def stripLit (lit s : Str) : Option Str :=
  if lit.isPrefixOf s then some (s.drop lit.length) else none

/-- Try to match the manifest pattern at the current position, returning
(group 1, group 2, rest); group 3 is the constant `</string>`. -/
def tryMatchPlist (s : Str) : Option (Str × Str × Str) :=
  match dropWsPlus s with
  | none => none
  | some (ws1, s1) =>
  match stripLit ("<key>snippetkeywordprefix</key>\n").toList s1 with
  | none => none
  | some s2 =>
  match dropWsPlus s2 with
  | none => none
  | some (ws2, s3) =>
  match stripLit ("<string></string>\n").toList s3 with
  | none => none
  | some s4 =>
  match dropWsPlus s4 with
  | none => none
  | some (ws3, s5) =>
  match stripLit ("<key>snippetkeywordsuffix</key>\n").toList s5 with
  | none => none
  | some s6 =>
  match dropWsPlus s6 with
  | none => none
  | some (ws4, s7) =>
  match stripLit ("<string></string>").toList s7 with
  | none => none
  | some s8 =>
    some (ws1 ++ ("<key>snippetkeywordprefix</key>\n").toList ++ ws2 ++ ("<string>").toList,
          ("</string>\n").toList ++ ws3 ++ ("<key>snippetkeywordsuffix</key>\n").toList
            ++ ws4 ++ ("<string>").toList,
          s8)

/-- The `re.sub` scan: at every position that begins a line, try the
pattern; on a match emit group1 ++ pre ++ group2 ++ suf ++ `</string>` and
resume after the match (whose last character `>` never starts a line);
otherwise advance one character.  `fuel` bounds the recursion and is always
called with more fuel than characters, so it never runs out. -/
def plistScan (pre suf : Str) : Nat → Bool → Str → Str
  | 0, _, s => s
  | _ + 1, _, [] => []
  | f + 1, atStart, c :: cs =>
    if atStart then
      match tryMatchPlist (c :: cs) with
      | some (g1, g2, rest) =>
        g1 ++ pre ++ g2 ++ suf ++ ("</string>").toList ++ plistScan pre suf f false rest
      | none => c :: plistScan pre suf f (c = '\n') cs
    else c :: plistScan pre suf f (c = '\n') cs

/-- Whether the scan of `plistScan` would find a match anywhere. -/
def plistFind : Nat → Bool → Str → Bool
  | 0, _, _ => false
  | _ + 1, _, [] => false
  | f + 1, atStart, c :: cs =>
    (atStart && (tryMatchPlist (c :: cs)).isSome) || plistFind f (c = '\n') cs

/-- `tweak_info_plist` on the manifest text. -/
def tweakInfoPlist (pre suf text : Str) : Str :=
  plistScan pre suf (text.length + 1) true text

/-- The manifest pattern occurs somewhere in the text. -/
def hasPlistPattern (text : Str) : Bool :=
  plistFind (text.length + 1) true text

/-- `COMMON_PREFIX = ':'`. -/
def COMMON_PREFIX_CH : Str := (":").toList

/-- `COMMON_SUFFIX = ':'`. -/
def COMMON_SUFFIX_CH : Str := (":").toList

/-- `collect_and_compress_to_new_single_snippetfile` over the processed
working directories: gather all record files into the merged set (collision
aborts), copy the icon, take `collections[0]`'s manifest (`IndexError` if
there are none), patch it, and pack the archive. -/
def collectAndCompress (dirs : List WorkDir) : Except RunError FinalArchive :=
  match gatherAll [] dirs with
  | .error e => .error e
  | .ok names =>
    match dirs with
    | [] => .error .indexError
    | d0 :: _ =>
      .ok ⟨names, tweakInfoPlist COMMON_PREFIX_CH COMMON_SUFFIX_CH d0.infoPlist⟩

/-!
### Record text format (`Snippet.from_json` / `Snippet.to_json`)

`from_json` is `json.loads(text)['alfredsnippet']` followed by field reads;
`to_json` is `json.dumps({...}, ensure_ascii=False, indent=2)`.

The JSON grammar is modelled on the fragment the record format uses:
strings and objects (numbers, arrays, booleans and null do not occur in
snippet records and are omitted).  Python's decoder is modelled faithfully
on this fragment: whitespace (space, tab, newline, carriage return) is
skipped between tokens, strings are strict (raw control characters below
0x20 are rejected), the escapes are the JSON ones plus `\uXXXX` (surrogate
code points are rejected: Lean's `Char` has no lone surrogates), duplicate
object keys keep the last occurrence, and trailing non-whitespace after the
document is an error.  The field values are required to be strings, per the
dataclass's declared types.
-/

inductive JsonVal where
  | str (s : Str)
  | obj (ms : List (Str × JsonVal))

def isJsonWs (c : Char) : Bool :=
  c = ' ' || c = '\t' || c = '\n' || c = '\r'

def skipWs (s : Str) : Str := s.dropWhile isJsonWs

/-- Hexadecimal digit value, upper or lower case. -/
def hexVal? (c : Char) : Option Nat :=
  if '0' ≤ c ∧ c ≤ '9' then some (c.toNat - 48)
  else if 'a' ≤ c ∧ c ≤ 'f' then some (c.toNat - 87)
  else if 'A' ≤ c ∧ c ≤ 'F' then some (c.toNat - 55)
  else none

/-- Lowercase hexadecimal digit for `n < 16` (as `'%04x'` formatting). -/
def hexDig (n : Nat) : Char :=
  if n < 10 then Char.ofNat (48 + n) else Char.ofNat (87 + n)

/-- Parse the body of a JSON string after its opening quote, returning the
decoded characters and the rest of the input after the closing quote. -/
def parseStringBody : Str → Option (Str × Str)
  | [] => none
  | c :: rest =>
    if c = '"' then some ([], rest)
    else if c = '\\' then
      match rest with
      | [] => none
      | e :: r =>
        if e = '"' then (parseStringBody r).map (fun p => ('"' :: p.1, p.2))
        else if e = '\\' then (parseStringBody r).map (fun p => ('\\' :: p.1, p.2))
        else if e = '/' then (parseStringBody r).map (fun p => ('/' :: p.1, p.2))
        else if e = 'b' then (parseStringBody r).map (fun p => ('\x08' :: p.1, p.2))
        else if e = 'f' then (parseStringBody r).map (fun p => ('\x0c' :: p.1, p.2))
        else if e = 'n' then (parseStringBody r).map (fun p => ('\n' :: p.1, p.2))
        else if e = 'r' then (parseStringBody r).map (fun p => ('\r' :: p.1, p.2))
        else if e = 't' then (parseStringBody r).map (fun p => ('\t' :: p.1, p.2))
        else if e = 'u' then
          match r with
          | h1 :: h2 :: h3 :: h4 :: r' =>
            match hexVal? h1, hexVal? h2, hexVal? h3, hexVal? h4 with
            | some d1, some d2, some d3, some d4 =>
              let code := ((d1 * 16 + d2) * 16 + d3) * 16 + d4
              if 0xd800 ≤ code ∧ code ≤ 0xdfff then none
              else (parseStringBody r').map (fun p => (Char.ofNat code :: p.1, p.2))
            | _, _, _, _ => none
          | _ => none
        else none
    else if c.toNat < 0x20 then none
    else (parseStringBody rest).map (fun p => (c :: p.1, p.2))

/-- Intermediate result of the recursive descent: a value, or the member
list of an object being read. -/
inductive PV where
  | val (v : JsonVal)
  | mems (ms : List (Str × JsonVal))

/-- The recursive descent of the decoder, one function so that the
recursion is structural on `fuel`.  `inMembers = false` parses one value
(string or object); `inMembers = true` parses a nonempty member list after
an opening brace.  Every recursive call consumes at least one character
first, so any fuel above the text length never runs out. -/
def parseCore : Nat → Bool → Str → Option (PV × Str)
  | 0, _, _ => none
  | f + 1, false, s =>
    match skipWs s with
    | '"' :: rest => (parseStringBody rest).map (fun p => (PV.val (JsonVal.str p.1), p.2))
    | '{' :: rest =>
      match skipWs rest with
      | '}' :: r => some (PV.val (JsonVal.obj []), r)
      | _ =>
        match parseCore f true rest with
        | some (PV.mems ms, r) => some (PV.val (JsonVal.obj ms), r)
        | _ => none
    | _ => none
  | f + 1, true, s =>
    match skipWs s with
    | '"' :: rest =>
      match parseStringBody rest with
      | none => none
      | some (k, r1) =>
        match skipWs r1 with
        | ':' :: r2 =>
          match parseCore f false r2 with
          | some (PV.val v, r3) =>
            match skipWs r3 with
            | ',' :: r4 =>
              match parseCore f true r4 with
              | some (PV.mems ms, r5) => some (PV.mems ((k, v) :: ms), r5)
              | _ => none
            | '}' :: r4 => some (PV.mems [(k, v)], r4)
            | _ => none
          | _ => none
        | _ => none
    | _ => none

/-- Parse one JSON value (string or object). -/
def parseValue (fuel : Nat) (s : Str) : Option (JsonVal × Str) :=
  match parseCore fuel false s with
  | some (PV.val v, r) => some (v, r)
  | _ => none

/-- Dict lookup on parsed members: a later duplicate key overwrites an
earlier one, as when Python's decoder builds the dict. -/
def objGet (ms : List (Str × JsonVal)) (k : Str) : Option JsonVal :=
  ms.foldl (fun acc p => if p.1 = k then some p.2 else acc) none

/-- `Snippet.from_json(json_text, collection)`: decode, read
`['alfredsnippet']`, and require string values for the four fields.
`none` models any raised decode/`KeyError`/type error, all of which abort
the run. -/
def fromJson (text : Str) (coll : Str) : Option Snippet :=
  match parseValue (text.length + 1) text with
  | none => none
  | some (v, rest) =>
    if skipWs rest = [] then
      match v with
      | .obj ms =>
        match objGet ms ("alfredsnippet").toList with
        | some (.obj item) =>
          match objGet item ("snippet").toList, objGet item ("uid").toList,
              objGet item ("name").toList, objGet item ("keyword").toList with
          | some (.str sn), some (.str uid), some (.str nm), some (.str kw) =>
            some ⟨coll, sn, uid, nm, kw⟩
          | _, _, _, _ => none
        | _ => none
      | _ => none
    else none

/-- One character as `json.dumps(..., ensure_ascii=False)` emits it:
escape the quote, the backslash and the control characters (the five named
escapes, `\u00XX` for the rest); everything else verbatim. -/
def escChar (c : Char) : Str :=
  if c = '"' then ['\\', '"']
  else if c = '\\' then ['\\', '\\']
  else if c = '\n' then ['\\', 'n']
  else if c = '\t' then ['\\', 't']
  else if c = '\r' then ['\\', 'r']
  else if c = '\x08' then ['\\', 'b']
  else if c = '\x0c' then ['\\', 'f']
  else if c.toNat < 0x20 then
    ['\\', 'u', '0', '0', hexDig (c.toNat / 16), hexDig (c.toNat % 16)]
  else [c]

/-- One `"key": "value"` member (the value quoted and escaped) preceded by
its newline-and-indentation segment `w`, continued by `tail`. -/
def memberSeg (w key val tail : Str) : Str :=
  w ++ '"' :: (key ++ '"' :: ':' :: ' ' :: '"' :: (val.flatMap escChar ++ '"' :: tail))

/-- The four members of the `alfredsnippet` object in `to_json`'s dict
order, separated by `','` + newline + indentation, closing both braces. -/
def innerMembers (r : Snippet) : Str :=
  memberSeg ("\n    ").toList ("snippet").toList r.snippet (',' ::
    memberSeg ("\n    ").toList ("uid").toList r.uid (',' ::
      memberSeg ("\n    ").toList ("name").toList r.name (',' ::
        memberSeg ("\n    ").toList ("keyword").toList r.keyword
          (("\n  ").toList ++ '\x7d' :: ("\n\x7d").toList))))

/-- The single `"alfredsnippet"` member of the top-level object. -/
def topMembers (r : Snippet) : Str :=
  '\n' :: ' ' :: ' ' :: '"' ::
    (("alfredsnippet").toList ++ '"' :: ':' :: ' ' :: '\x7b' :: innerMembers r)

/-- `Snippet.to_json`: the exact text of
`json.dumps({"alfredsnippet": {...}}, ensure_ascii=False, indent=2)`. -/
def toJsonText (r : Snippet) : Str :=
  '\x7b' :: topMembers r

/-- The parsed form of `to_json`'s output. -/
def recordJson (r : Snippet) : JsonVal :=
  .obj [(("alfredsnippet").toList,
    .obj [(("snippet").toList, .str r.snippet), (("uid").toList, .str r.uid),
          (("name").toList, .str r.name), (("keyword").toList, .str r.keyword)])]


/-!
## Helper lemmas
-/

/-- A pattern that never occurs is never replaced. -/
theorem replaceAllScan_of_not_containsSub (pat rep : Str) :
    ∀ (f : Nat) (s : Str), containsSub pat s = false → replaceAllScan pat rep f s = s := by
  intro f
  induction f with
  | zero => intro s _; rfl
  | succ f ih =>
    intro s h
    match s with
    | [] => rfl
    | c :: cs =>
      simp only [containsSub, Bool.or_eq_false_iff] at h
      rw [replaceAllScan, if_neg, ih cs h.2]
      intro hc
      rw [hc.2] at h
      exact absurd h.1 (by simp)

/-- A pattern that never occurs is never replaced. -/
theorem replaceAll_of_not_containsSub (pat rep s : Str)
    (h : containsSub pat s = false) : replaceAll pat rep s = s :=
  replaceAllScan_of_not_containsSub pat rep (s.length + 1) s h

theorem isPrefixOf_self_append (a b : Str) : a.isPrefixOf (a ++ b) = true :=
  List.isPrefixOf_iff_prefix.mpr (List.prefix_append a b)

/-- `str.split(':')` of a colon-free string. -/
theorem splitOnColon_no_colon (l : Str) (h : ':' ∉ l) : splitOnColon l = [l] := by
  induction l with
  | nil => rfl
  | cons c cs ih =>
    have hc : ¬ c = ':' := fun hc => h (hc ▸ List.mem_cons_self c cs)
    have hcs : ':' ∉ cs := fun hm => h (List.mem_cons_of_mem c hm)
    rw [splitOnColon, if_neg hc, ih hcs]

/-- `'k:n'.split(':')` yields exactly the two colon-free fields. -/
theorem splitOnColon_pair (kw nm : Str) (hk : ':' ∉ kw) (hn : ':' ∉ nm) :
    splitOnColon (kw ++ ':' :: nm) = [kw, nm] := by
  induction kw with
  | nil => simp [splitOnColon, splitOnColon_no_colon nm hn]
  | cons c cs ih =>
    have hc : ¬ c = ':' := fun hc => hk (hc ▸ List.mem_cons_self c cs)
    have hcs : ':' ∉ cs := fun hm => hk (List.mem_cons_of_mem c hm)
    rw [List.cons_append, splitOnColon, if_neg hc, ih hcs]

theorem eq_dropLast_append (l : Str) (a : Char) (h : l.getLast? = some a) :
    l = l.dropLast ++ [a] := by
  have hne : l ≠ [] := by rintro rfl; simp at h
  have h2 : l.getLast hne = a := by
    have h3 := List.getLast?_eq_getLast l hne
    rw [h3] at h
    exact Option.some_inj.mp h
  rw [← h2]
  exact (List.dropLast_append_getLast hne).symm

theorem stripCore_colon (rest tl s : Str) : stripCore (':' :: rest) tl s =
    if rest.getLast? = some ':' ∧ 2 ≤ rest.length ∧ '\n' ∉ rest.dropLast then
      rest.dropLast ++ tl
    else s := rfl

theorem stripCore_nil (tl s : Str) : stripCore [] tl s = s := rfl

theorem stripCore_ne (c : Char) (rest tl s : Str) (h : c ≠ ':') :
    stripCore (c :: rest) tl s = s := by
  unfold stripCore
  split
  · next heq => rw [List.cons.injEq] at heq; exact absurd heq.1 h
  · rfl

/-- Every keyword is either stripped as a proper wrap (possibly before a
final trailing newline, which survives) or returned unchanged: the exact
behaviour of `re.sub(r'^:(.+):$', r'\1', k)`. -/
theorem stripKeyword_cases (k : Str) :
    (∃ mid, mid ≠ [] ∧ '\n' ∉ mid ∧
      ((k = ':' :: mid ++ [':'] ∧ stripKeyword k = mid) ∨
       (k = ':' :: mid ++ [':', '\n'] ∧ stripKeyword k = mid ++ ['\n']))) ∨
    stripKeyword k = k := by
  unfold stripKeyword
  by_cases hnl : k.getLast? = some '\n'
  · rw [if_pos hnl]
    rcases hb : k.dropLast with _ | ⟨c, rest⟩
    · right; exact stripCore_nil _ _
    by_cases hc : c = ':'
    · subst hc
      rw [stripCore_colon]
      by_cases hcond : rest.getLast? = some ':' ∧ 2 ≤ rest.length ∧ '\n' ∉ rest.dropLast
      · rw [if_pos hcond]
        left
        refine ⟨rest.dropLast, ?_, hcond.2.2, Or.inr ⟨?_, rfl⟩⟩
        · intro hnil
          have hl := congrArg List.length hnil
          have h2 := hcond.2.1
          simp [List.length_dropLast] at hl
          omega
        · have h1 : rest = rest.dropLast ++ [':'] := eq_dropLast_append rest ':' hcond.1
          have h2 : k = k.dropLast ++ ['\n'] := eq_dropLast_append k '\n' hnl
          rw [h2, hb]
          nth_rewrite 1 [h1]
          simp
      · rw [if_neg hcond]; right; rfl
    · right; exact stripCore_ne c rest _ _ hc
  · rw [if_neg hnl]
    rcases hb : k with _ | ⟨c, rest⟩
    · right; exact stripCore_nil _ _
    by_cases hc : c = ':'
    · subst hc
      rw [stripCore_colon]
      by_cases hcond : rest.getLast? = some ':' ∧ 2 ≤ rest.length ∧ '\n' ∉ rest.dropLast
      · rw [if_pos hcond]
        left
        refine ⟨rest.dropLast, ?_, hcond.2.2, Or.inl ⟨?_, by simp⟩⟩
        · intro hnil
          have hl := congrArg List.length hnil
          have h2 := hcond.2.1
          simp [List.length_dropLast] at hl
          omega
        · have h1 : rest = rest.dropLast ++ [':'] := eq_dropLast_append rest ':' hcond.1
          nth_rewrite 1 [h1]
          simp
      · rw [if_neg hcond]; right; rfl
    · right; exact stripCore_ne c rest _ _ hc

/-- Moving files whose names are all fresh succeeds and appends them. -/
theorem addSnippets_ok (dn : Str) :
    ∀ (ns acc : List Str), (acc ++ ns).Nodup → addSnippets dn acc ns = .ok (acc ++ ns) := by
  intro ns
  induction ns with
  | nil => intro acc _; simp [addSnippets]
  | cons n ns ih =>
    intro acc h
    have hmem : n ∉ acc := by
      rcases List.nodup_append.mp h with ⟨_, _, hdisj⟩
      exact fun hm => hdisj hm (List.mem_cons_self n ns)
    rw [addSnippets, if_neg hmem]
    have : (acc ++ [n]) ++ ns = acc ++ n :: ns := by simp
    rw [ih (acc ++ [n]) (this ▸ h), this]

/-- If the incoming names clash with the merged set (or among themselves),
the move loop raises the collision error, naming the offending file. -/
theorem addSnippets_err (dn : Str) :
    ∀ (ns acc : List Str), acc.Nodup → ¬ (acc ++ ns).Nodup →
      ∃ f, addSnippets dn acc ns = .error (.collision dn f) ∧ f ∈ ns := by
  intro ns
  induction ns with
  | nil => intro acc h1 h2; simp at h2; exact absurd h1 h2
  | cons n ns ih =>
    intro acc h1 h2
    by_cases hmem : n ∈ acc
    · exact ⟨n, by rw [addSnippets, if_pos hmem], List.mem_cons_self n ns⟩
    · have h1' : (acc ++ [n]).Nodup := by
        rw [List.nodup_append]
        exact ⟨h1, List.nodup_singleton n, by simpa using hmem⟩
      have h2' : ¬ ((acc ++ [n]) ++ ns).Nodup := by
        have : (acc ++ [n]) ++ ns = acc ++ n :: ns := by simp
        rw [this]; exact h2
      obtain ⟨f, hf1, hf2⟩ := ih (acc ++ [n]) h1' h2'
      exact ⟨f, by rw [addSnippets, if_neg hmem]; exact hf1, List.mem_cons_of_mem n hf2⟩

/-- Gathering clash-free collections succeeds with all their files. -/
theorem gatherAll_ok :
    ∀ (dirs : List WorkDir) (acc : List Str),
      (acc ++ dirs.flatMap WorkDir.snippets).Nodup →
      gatherAll acc dirs = .ok (acc ++ dirs.flatMap WorkDir.snippets) := by
  intro dirs
  induction dirs with
  | nil => intro acc _; simp [gatherAll]
  | cons d ds ih =>
    intro acc h
    rw [List.flatMap_cons, ← List.append_assoc] at h
    have h1 : (acc ++ d.snippets).Nodup := by
      rcases List.nodup_append.mp h with ⟨hl, _, _⟩
      exact hl
    rw [gatherAll, addSnippets_ok d.name d.snippets acc h1]
    exact (ih (acc ++ d.snippets) h).trans (congrArg Except.ok (by simp))

/-- A clash anywhere among the gathered filenames makes the gather loop
fail with a collision error naming a directory and an offending file. -/
theorem gatherAll_err :
    ∀ (dirs : List WorkDir) (acc : List Str),
      acc.Nodup → ¬ (acc ++ dirs.flatMap WorkDir.snippets).Nodup →
      ∃ dn f, gatherAll acc dirs = .error (.collision dn f) ∧
        f ∈ dirs.flatMap WorkDir.snippets := by
  intro dirs
  induction dirs with
  | nil => intro acc h1 h2; simp at h2; exact absurd h1 h2
  | cons d ds ih =>
    intro acc h1 h2
    rw [List.flatMap_cons, ← List.append_assoc] at h2
    by_cases hd : (acc ++ d.snippets).Nodup
    · obtain ⟨dn, f, hf1, hf2⟩ := ih (acc ++ d.snippets) hd h2
      refine ⟨dn, f, ?_, by simp [hf2]⟩
      rw [gatherAll, addSnippets_ok d.name d.snippets acc hd]
      exact hf1
    · obtain ⟨f, hf1, hf2⟩ := addSnippets_err d.name d.snippets acc h1 hd
      refine ⟨d.name, f, ?_, by simp [hf2]⟩
      rw [gatherAll, hf1]

/-- When the scan never finds the manifest pattern, the substitution is the
identity. -/
theorem plistScan_id (pre suf : Str) :
    ∀ (fuel : Nat) (b : Bool) (s : Str), plistFind fuel b s = false →
      plistScan pre suf fuel b s = s := by
  intro fuel
  induction fuel with
  | zero => intro b s _; rfl
  | succ f ih =>
    intro b s h
    match s with
    | [] => rfl
    | c :: cs =>
      rw [plistFind, Bool.or_eq_false_iff] at h
      rw [plistScan]
      by_cases hb : b
      · have hm : tryMatchPlist (c :: cs) = none := by
          rcases hmm : tryMatchPlist (c :: cs) with _ | v
          · rfl
          · rw [hb, hmm] at h; simp at h
        rw [if_pos hb, hm, ih _ cs h.2]
      · rw [if_neg hb, ih _ cs h.2]

/-- Components free of the pipe character can be split off unambiguously at
a `' '::'|'::…` separator. -/
theorem sepInj :
    ∀ (a b t1 t2 : Str), '|' ∉ a → '|' ∉ b →
      a ++ ' ' :: '|' :: t1 = b ++ ' ' :: '|' :: t2 → a = b ∧ t1 = t2 := by
  intro a
  induction a with
  | nil =>
    intro b t1 t2 _ hb heq
    rcases b with _ | ⟨y, ys⟩
    · simpa using heq
    · rw [List.nil_append, List.cons_append, List.cons.injEq] at heq
      rcases ys with _ | ⟨z, zs⟩
      · rw [List.nil_append, List.cons.injEq] at heq
        exact absurd heq.2.1 (by decide)
      · rw [List.cons_append, List.cons.injEq] at heq
        refine absurd ?_ hb
        rw [heq.2.1]
        exact List.mem_cons_of_mem y (List.mem_cons_self z zs)
  | cons x xs ih =>
    intro b t1 t2 ha hb heq
    rcases b with _ | ⟨y, ys⟩
    · rw [List.nil_append, List.cons_append, List.cons.injEq] at heq
      rcases xs with _ | ⟨z, zs⟩
      · rw [List.nil_append, List.cons.injEq] at heq
        exact absurd heq.2.1 (by decide)
      · rw [List.cons_append, List.cons.injEq] at heq
        refine absurd ?_ ha
        rw [← heq.2.1]
        exact List.mem_cons_of_mem x (List.mem_cons_self z zs)
    · rw [List.cons_append, List.cons_append, List.cons.injEq] at heq
      have hxs : '|' ∉ xs := fun hm => ha (List.mem_cons_of_mem x hm)
      have hys : '|' ∉ ys := fun hm => hb (List.mem_cons_of_mem y hm)
      obtain ⟨h1, h2⟩ := ih ys t1 t2 hxs hys heq.2
      exact ⟨by rw [heq.1, h1], h2⟩

/-!
## Claim theorems
-/

/-- C10: if zero non-ignored input archives are discovered (the list of
working directories is empty), aggregation fails with the out-of-range
index error raised when `collections[0]` is read to pick the manifest
source directory, rather than producing an empty final archive. -/
theorem c10_empty_workspace_index_error :
    collectAndCompress [] = .error RunError.indexError := rfl

/-- C1: during aggregation, if a record file's destination filename already
exists in the merged directory (equivalently: the filenames gathered from
the working directories are not all distinct), the run fails with the
collision error naming the offending directory and file, and no final
archive is produced. -/
theorem c1_collision_aborts (dirs : List WorkDir)
    (h : ¬ (dirs.flatMap WorkDir.snippets).Nodup) :
    ∃ dn f, collectAndCompress dirs = .error (RunError.collision dn f) ∧
      f ∈ dirs.flatMap WorkDir.snippets ∧
      ∀ a : FinalArchive, collectAndCompress dirs ≠ .ok a := by
  obtain ⟨dn, f, hf1, hf2⟩ := gatherAll_err dirs [] List.nodup_nil (by simpa using h)
  have hcc : collectAndCompress dirs = .error (RunError.collision dn f) := by
    rw [collectAndCompress, hf1]
  exact ⟨dn, f, hcc, hf2, fun a hc => by rw [hcc] at hc; exact Except.noConfusion hc⟩

theorem c1_collision_aborts_witness :
    (¬ (([⟨("A").toList, [("x.json").toList], []⟩,
         ⟨("B").toList, [("x.json").toList], []⟩] : List WorkDir).flatMap
            WorkDir.snippets).Nodup) ∧
    (∃ dn f,
      collectAndCompress [⟨("A").toList, [("x.json").toList], []⟩,
        ⟨("B").toList, [("x.json").toList], []⟩] = .error (RunError.collision dn f) ∧
      f ∈ ([⟨("A").toList, [("x.json").toList], []⟩,
        ⟨("B").toList, [("x.json").toList], []⟩] : List WorkDir).flatMap WorkDir.snippets ∧
      ∀ a : FinalArchive,
        collectAndCompress [⟨("A").toList, [("x.json").toList], []⟩,
          ⟨("B").toList, [("x.json").toList], []⟩] ≠ .ok a) :=
  ⟨by decide, c1_collision_aborts _ (by decide)⟩

/-- C8 fails as stated: collection-label stripping is not idempotent on
every string.  One pass over `"[Emo[Emoji] ji] x"` removes the inner
`"[Emoji] "` and the cut ends splice into a fresh `"[Emoji] "` marker,
which only a second pass removes, so applying the stripping twice differs
from applying it once. -/
theorem c8_counterexample :
    collectionLabel (collectionLabel ("[Emo[Emoji] ji] x").toList) ≠
      collectionLabel ("[Emo[Emoji] ji] x").toList := by decide

/-- C8 amended: collection-label stripping is idempotent on every
collection name whose once-stripped label contains no further occurrence
of the `"[Emoji] "` marker or of the `".alfredsnippets"` extension (true
in particular of every actual collection name); without that proviso a
second pass can strip occurrences spliced together by the first. -/
theorem c8_label_strip_amended (c : Str)
    (h1 : containsSub (("[Emoji] ").toList) (collectionLabel c) = false)
    (h2 : containsSub ((".alfredsnippets").toList) (collectionLabel c) = false) :
    collectionLabel (collectionLabel c) = collectionLabel c :=
  calc collectionLabel (collectionLabel c)
      = replaceAll ((".alfredsnippets").toList) []
          (replaceAll (("[Emoji] ").toList) [] (collectionLabel c)) := rfl
    _ = replaceAll ((".alfredsnippets").toList) [] (collectionLabel c) := by
        rw [replaceAll_of_not_containsSub _ _ _ h1]
    _ = collectionLabel c := replaceAll_of_not_containsSub _ _ _ h2

theorem c8_label_strip_amended_witness :
    containsSub (("[Emoji] ").toList)
      (collectionLabel ("[Emoji] Activity.alfredsnippets").toList) = false ∧
    containsSub ((".alfredsnippets").toList)
      (collectionLabel ("[Emoji] Activity.alfredsnippets").toList) = false ∧
    collectionLabel (collectionLabel ("[Emoji] Activity.alfredsnippets").toList) =
      collectionLabel ("[Emoji] Activity.alfredsnippets").toList :=
  ⟨by decide, by decide, c8_label_strip_amended _ (by decide) (by decide)⟩

/-- C5 fails as stated: when the manifest's prefix/suffix fields do not
occur in the expected pattern, `re.sub` finds nothing, the text is written
back unchanged, no error of any kind is raised, and the run goes on to
produce the final archive with the unpatched manifest. -/
theorem c5_counterexample :
    tweakInfoPlist COMMON_PREFIX_CH COMMON_SUFFIX_CH (("not a plist").toList) =
      ("not a plist").toList ∧
    collectAndCompress [⟨("X").toList, [("a.json").toList], ("not a plist").toList⟩] =
      .ok ⟨[("a.json").toList], ("not a plist").toList⟩ := ⟨rfl, rfl⟩

/-- C5 amended: when the manifest's prefix/suffix fields are not found in
the expected structural pattern, the patch silently leaves the manifest
text unmodified and the run continues and produces the final archive with
that unmodified manifest; no error is raised (the code has no
`ManifestPatchError` analogue). -/
theorem c5_manifest_amended (pre suf : Str) (d : WorkDir) (ds : List WorkDir)
    (h1 : hasPlistPattern d.infoPlist = false)
    (h2 : ((d :: ds).flatMap WorkDir.snippets).Nodup) :
    tweakInfoPlist pre suf d.infoPlist = d.infoPlist ∧
    collectAndCompress (d :: ds) =
      .ok ⟨(d :: ds).flatMap WorkDir.snippets, d.infoPlist⟩ := by
  have hid : ∀ p q : Str, tweakInfoPlist p q d.infoPlist = d.infoPlist := fun p q =>
    plistScan_id p q _ true d.infoPlist h1
  refine ⟨hid pre suf, ?_⟩
  have hg := gatherAll_ok (d :: ds) [] (by simpa using h2)
  rw [collectAndCompress, hg]
  show Except.ok (FinalArchive.mk ([] ++ (d :: ds).flatMap WorkDir.snippets)
      (tweakInfoPlist COMMON_PREFIX_CH COMMON_SUFFIX_CH d.infoPlist)) =
    Except.ok (FinalArchive.mk ((d :: ds).flatMap WorkDir.snippets) d.infoPlist)
  rw [hid, List.nil_append]

theorem c5_manifest_amended_witness :
    hasPlistPattern (("hello").toList) = false ∧
    (([(⟨("X").toList, [("a.json").toList], ("hello").toList⟩ : WorkDir)] :
        List WorkDir).flatMap WorkDir.snippets).Nodup ∧
    (tweakInfoPlist ((":").toList) ((":").toList) (("hello").toList) = ("hello").toList ∧
     collectAndCompress [⟨("X").toList, [("a.json").toList], ("hello").toList⟩] =
       .ok (FinalArchive.mk
          (([(⟨("X").toList, [("a.json").toList], ("hello").toList⟩ : WorkDir)] :
              List WorkDir).flatMap WorkDir.snippets)
          (("hello").toList))) :=
  ⟨by decide, by decide,
    c5_manifest_amended ((":").toList) ((":").toList)
      ⟨("X").toList, [("a.json").toList], ("hello").toList⟩ [] (by decide) (by decide)⟩

/-- C6 fails as stated: the rule table is indeed consulted exactly once per
record, but the lookup is not the first transformation step — the keyword
strip of line 181 runs before the lookup of line 182, as the step trace of
a concrete record shows. -/
theorem c6_counterexample :
    (tweakSteps ⟨("C").toList, ("p").toList, ("u").toList, ("n").toList,
        ("k").toList⟩).count TweakStep.ruleLookup = 1 ∧
    (tweakSteps ⟨("C").toList, ("p").toList, ("u").toList, ("n").toList,
        ("k").toList⟩).takeWhile (fun e => e != TweakStep.ruleLookup) =
      [TweakStep.stripKeyword] := by decide

/-- C6 amended: for every record the rule table is consulted exactly once,
and the lookup happens right after the keyword normalization and before
every other step (rule application, index registration, name rewrite);
neither the strip nor a second lookup occurs later. -/
theorem c6_lookup_order_amended (s : Snippet) :
    (tweakSteps s).count TweakStep.ruleLookup = 1 ∧
    ∃ rest, tweakSteps s = TweakStep.stripKeyword :: TweakStep.ruleLookup :: rest ∧
      TweakStep.ruleLookup ∉ rest ∧ TweakStep.stripKeyword ∉ rest := by
  unfold tweakSteps
  split
  · split
    · exact ⟨by decide, [], rfl, by decide, by decide⟩
    · split
      · split
        · exact ⟨by decide,
            [TweakStep.applyRule, TweakStep.register, TweakStep.rewriteName],
            rfl, by decide, by decide⟩
        · exact ⟨by decide, [TweakStep.applyRule], rfl, by decide, by decide⟩
      · exact ⟨by decide, [TweakStep.register, TweakStep.rewriteName],
          rfl, by decide, by decide⟩
  · exact ⟨by decide, [TweakStep.register, TweakStep.rewriteName],
      rfl, by decide, by decide⟩

/-- C4 fails as stated: the keyword `":a\nb:"` carries a matched leading
and trailing delimiter pair, so the claim demands the stripped `"a\nb"`;
but the regex's `.` never matches a newline, so the code leaves the
keyword untouched for this no-rule record. -/
theorem c4_counterexample :
    (tweakSnippet ⟨[], []⟩ ⟨("C").toList, ("p").toList, ("u").toList, ("n").toList,
        (":a\nb:").toList⟩).toOption.map (fun r => r.2.map Snippet.keyword) =
      some (some ((":a\nb:").toList)) ∧
    (":a\nb:").toList ≠ ("a\nb").toList := ⟨rfl, by decide⟩

/-- C4 amended: a record with no rule-table entry is kept, and its final
keyword is the input keyword with the delimiter wrapper stripped exactly
when the keyword is `:` + mid + `:` for a nonempty, newline-free mid
(a single trailing newline after the closing delimiter is tolerated and
preserved); in every other case — including asymmetric wrapping, the bare
`"::"`, and interiors containing a newline — the keyword is untouched. -/
theorem c4_strip_amended (st : GState) (s : Snippet)
    (h : lookupAction s.collection s.uid = none) :
    ∃ st' s', tweakSnippet st s = .ok (st', some s') ∧
      s'.keyword = stripKeyword s.keyword ∧
      ((∃ mid, mid ≠ [] ∧ '\n' ∉ mid ∧
        ((s.keyword = ':' :: mid ++ [':'] ∧ s'.keyword = mid) ∨
         (s.keyword = ':' :: mid ++ [':', '\n'] ∧ s'.keyword = mid ++ ['\n']))) ∨
       s'.keyword = s.keyword) := by
  have hstep : tweakSnippet st s =
      .ok (registerAndRename st { s with keyword := stripKeyword s.keyword }) := by
    simp only [tweakSnippet, h]
  exact ⟨_, _, hstep, rfl, stripKeyword_cases s.keyword⟩

theorem c4_strip_amended_witness :
    lookupAction ("C").toList ("u").toList = none ∧
    (∃ st' s',
      tweakSnippet ⟨[], []⟩ ⟨("C").toList, ("p").toList, ("u").toList, ("n").toList,
        (":coffee:").toList⟩ = .ok (st', some s') ∧
      s'.keyword = stripKeyword ((":coffee:").toList) ∧
      ((∃ mid, mid ≠ [] ∧ '\n' ∉ mid ∧
        (((":coffee:").toList = ':' :: mid ++ [':'] ∧ s'.keyword = mid) ∨
         ((":coffee:").toList = ':' :: mid ++ [':', '\n'] ∧ s'.keyword = mid ++ ['\n']))) ∨
       s'.keyword = (":coffee:").toList)) :=
  ⟨by decide, c4_strip_amended ⟨[], []⟩
    ⟨("C").toList, ("p").toList, ("u").toList, ("n").toList, (":coffee:").toList⟩
    (by decide)⟩

/-- C2: for every record whose rule-table entry is
`rename:` + k + `:` + n (the encoding of `rename(k, n)`, whose fields are
colon-free by construction of the format), the transformed record is kept
with final keyword k, and its final display name is
`"Emoji | "` + label + `" | "` + n + `" | "` + k, where label is the
record's collection name with the `"[Emoji] "` marker and the
`".alfredsnippets"` extension stripped. -/
theorem c2_rename_rule (st : GState) (s : Snippet) (kw nm : Str)
    (h : lookupAction s.collection s.uid = some (("rename:").toList ++ (kw ++ ':' :: nm)))
    (hk : ':' ∉ kw) (hn : ':' ∉ nm) :
    ∃ st' s', tweakSnippet st s = .ok (st', some s') ∧ s'.keyword = kw ∧
      s'.name = ("Emoji | ").toList ++ collectionLabel s.collection ++ (" | ").toList
        ++ nm ++ (" | ").toList ++ kw := by
  have hne : ¬ (("rename:").toList ++ (kw ++ ':' :: nm) = ("remove").toList) := by
    intro heq
    have hl := congrArg List.length heq
    rw [List.length_append] at hl
    have h7 : (("rename:").toList).length = 7 := rfl
    have h6 : (("remove").toList).length = 6 := rfl
    rw [h7, h6] at hl
    omega
  have hpre : (("rename:").toList).isPrefixOf
      (("rename:").toList ++ (kw ++ ':' :: nm)) = true := isPrefixOf_self_append _ _
  have hdrop : ((("rename:").toList ++ (kw ++ ':' :: nm)).drop 7) = kw ++ ':' :: nm := by
    have hd := List.drop_left (("rename:").toList) (kw ++ ':' :: nm)
    rw [show ((("rename:").toList).length) = 7 from rfl] at hd
    exact hd
  have hstep : tweakSnippet st s =
      .ok (registerAndRename st ⟨s.collection, s.snippet, s.uid, nm, kw⟩) := by
    simp only [tweakSnippet, h]
    rw [if_neg hne, if_pos hpre, hdrop, splitOnColon_pair kw nm hk hn]
  exact ⟨_, _, hstep, rfl, rfl⟩

theorem c2_rename_rule_witness :
    lookupAction ("[Emoji] Aliases.alfredsnippets").toList
        ("7BBB3467-E963-4563-A24F-5ADB2A7134E3").toList =
      some (("rename:").toList ++ (("space-invader").toList ++ ':' :: ("Space Invader").toList)) ∧
    ':' ∉ ("space-invader").toList ∧ ':' ∉ ("Space Invader").toList ∧
    (∃ st' s',
      tweakSnippet ⟨[], []⟩ ⟨("[Emoji] Aliases.alfredsnippets").toList, ("p").toList,
        ("7BBB3467-E963-4563-A24F-5ADB2A7134E3").toList, ("video-game").toList,
        (":video-game:").toList⟩ = .ok (st', some s') ∧
      s'.keyword = ("space-invader").toList ∧
      s'.name = ("Emoji | ").toList ++
        collectionLabel ("[Emoji] Aliases.alfredsnippets").toList ++ (" | ").toList
        ++ ("Space Invader").toList ++ (" | ").toList ++ ("space-invader").toList) :=
  ⟨by decide, by decide, by decide,
    c2_rename_rule ⟨[], []⟩
      ⟨("[Emoji] Aliases.alfredsnippets").toList, ("p").toList,
        ("7BBB3467-E963-4563-A24F-5ADB2A7134E3").toList, ("video-game").toList,
        (":video-game:").toList⟩
      (("space-invader").toList) (("Space Invader").toList)
      (by decide) (by decide) (by decide)⟩

/-- C3: for every record whose rule-table entry (under the collection
directory it is processed in) is `remove`, the transformer returns the
removed result with the global indexes untouched, `process_snippet`
deletes the stored file and returns the same untouched state, and
processing a directory with the record's file present gives exactly the
same state and surviving files as processing it with the file absent —
so the record reaches neither the final archive nor either index. -/
theorem c3_remove_rule (st : GState) (dirName fname : Str) (s : Snippet)
    (pre post : List (Str × Snippet))
    (h : lookupAction dirName s.uid = some (("remove").toList)) :
    tweakSnippet st { s with collection := dirName } = .ok (st, none) ∧
    processSnippet st dirName fname s = .ok (st, none) ∧
    processDir st dirName (pre ++ (fname, s) :: post) = processDir st dirName (pre ++ post) := by
  have h1 : ∀ st0 : GState, tweakSnippet st0 { s with collection := dirName } =
      .ok (st0, none) := by
    intro st0
    simp only [tweakSnippet, h]
    rw [if_pos trivial]
  have h2 : ∀ st0 : GState, processSnippet st0 dirName fname s = .ok (st0, none) := by
    intro st0
    rw [processSnippet, h1 st0]
  refine ⟨h1 st, h2 st, ?_⟩
  induction pre generalizing st with
  | nil =>
    rw [List.nil_append, List.nil_append, processDir, h2 st]
  | cons p pre ih =>
    rcases p with ⟨fn, sn⟩
    rw [List.cons_append, List.cons_append, processDir, processDir]
    rcases hp : processSnippet st dirName fn sn with e | ⟨st2, k⟩
    · rfl
    · rcases k with _ | kept
      · exact ih st2
      · simp only [ih st2]

theorem c3_remove_rule_witness :
    lookupAction ("[Emoji] Objects.alfredsnippets").toList
        ("E5539CBF-8C94-4E63-A76F-28F5BB9A778D").toList = some (("remove").toList) ∧
    (tweakSnippet ⟨[], []⟩
        { (⟨("C").toList, ("p").toList, ("E5539CBF-8C94-4E63-A76F-28F5BB9A778D").toList,
            ("n").toList, ("k").toList⟩ : Snippet) with
          collection := ("[Emoji] Objects.alfredsnippets").toList } = .ok (⟨[], []⟩, none) ∧
     processSnippet ⟨[], []⟩ (("[Emoji] Objects.alfredsnippets").toList) (("f.json").toList)
        ⟨("C").toList, ("p").toList, ("E5539CBF-8C94-4E63-A76F-28F5BB9A778D").toList,
          ("n").toList, ("k").toList⟩ = .ok (⟨[], []⟩, none) ∧
     processDir ⟨[], []⟩ (("[Emoji] Objects.alfredsnippets").toList)
        ([] ++ ((("f.json").toList),
          (⟨("C").toList, ("p").toList, ("E5539CBF-8C94-4E63-A76F-28F5BB9A778D").toList,
            ("n").toList, ("k").toList⟩ : Snippet)) :: []) =
       processDir ⟨[], []⟩ (("[Emoji] Objects.alfredsnippets").toList) ([] ++ [])) :=
  ⟨by decide,
    c3_remove_rule ⟨[], []⟩ (("[Emoji] Objects.alfredsnippets").toList) (("f.json").toList)
      ⟨("C").toList, ("p").toList, ("E5539CBF-8C94-4E63-A76F-28F5BB9A778D").toList,
        ("n").toList, ("k").toList⟩ [] [] (by decide)⟩

/-- C7 fails as stated: two distinct no-rule records of the same collection
`"C"`, one named `"a | b"` with keyword `"k"`, the other named `"a"` with
keyword `"b | k"`, receive the identical final display name
`"Emoji | C | a | b | k"`, although their (collection, original-name,
final-keyword) triples differ: the pipe-bearing fields make the rewrite's
decomposition ambiguous. -/
theorem c7_counterexample :
    (tweakSnippet ⟨[], []⟩ ⟨("C").toList, ("p").toList, ("u1").toList, ("a | b").toList,
        ("k").toList⟩).toOption.map (fun r => r.2.map Snippet.name) =
      some (some (("Emoji | C | a | b | k").toList)) ∧
    (tweakSnippet ⟨[], []⟩ ⟨("C").toList, ("q").toList, ("u2").toList, ("a").toList,
        ("b | k").toList⟩).toOption.map (fun r => r.2.map Snippet.name) =
      some (some (("Emoji | C | a | b | k").toList)) ∧
    (tweakSnippet ⟨[], []⟩ ⟨("C").toList, ("p").toList, ("u1").toList, ("a | b").toList,
        ("k").toList⟩).toOption.map (fun r => r.2.map Snippet.keyword) =
      some (some (("k").toList)) ∧
    (tweakSnippet ⟨[], []⟩ ⟨("C").toList, ("q").toList, ("u2").toList, ("a").toList,
        ("b | k").toList⟩).toOption.map (fun r => r.2.map Snippet.keyword) =
      some (some (("b | k").toList)) ∧
    ((("C").toList, ("a | b").toList, ("k").toList) :
      Str × Str × Str) ≠ (("C").toList, ("a").toList, ("b | k").toList) :=
  ⟨rfl, rfl, rfl, rfl, by decide⟩

/-- C7 amended: the final display name determines the (collection-label,
rule-adjusted name, final keyword) triple — not the raw collection — and
only for records none of whose three components contains the pipe
character `'|'`; every kept record's final name is of the rewritten form
`mkFinalName label nm keyword` for its label and final keyword and some
rule-adjusted name nm. -/
theorem c7_final_name_inj :
    (∀ L1 N1 K1 L2 N2 K2 : Str, '|' ∉ L1 → '|' ∉ N1 → '|' ∉ K1 →
      '|' ∉ L2 → '|' ∉ N2 → '|' ∉ K2 →
      mkFinalName L1 N1 K1 = mkFinalName L2 N2 K2 →
      L1 = L2 ∧ N1 = N2 ∧ K1 = K2) ∧
    (∀ (st : GState) (s : Snippet) (st' : GState) (r : Snippet),
      tweakSnippet st s = .ok (st', some r) →
      ∃ nm, r.name = mkFinalName (collectionLabel s.collection) nm r.keyword) := by
  constructor
  · intro L1 N1 K1 L2 N2 K2 h1 h2 h3 h4 h5 h6 heq
    rw [mkFinalName, mkFinalName] at heq
    simp only [List.append_assoc] at heq
    have heq2 := List.append_cancel_left heq
    have heq3 : L1 ++ ' ' :: '|' :: (' ' :: (N1 ++ ' ' :: '|' :: (' ' :: K1))) =
        L2 ++ ' ' :: '|' :: (' ' :: (N2 ++ ' ' :: '|' :: (' ' :: K2))) := heq2
    obtain ⟨hL, htail⟩ := sepInj L1 L2 _ _ h1 h4 heq3
    rw [List.cons.injEq] at htail
    obtain ⟨hN, htail2⟩ := sepInj N1 N2 _ _ h2 h5 htail.2
    rw [List.cons.injEq] at htail2
    exact ⟨hL, hN, htail2.2⟩
  · intro st s st' r htw
    rcases hl : lookupAction s.collection s.uid with _ | act
    · simp only [tweakSnippet, hl, registerAndRename] at htw
      rw [Except.ok.injEq, Prod.mk.injEq] at htw
      rw [Option.some.injEq] at htw
      exact ⟨s.name, by rw [← htw.2]⟩
    · simp only [tweakSnippet, hl] at htw
      split at htw
      · exact absurd htw (by simp)
      · split at htw
        · split at htw
          · next kw nm heq =>
            simp only [registerAndRename] at htw
            rw [Except.ok.injEq, Prod.mk.injEq] at htw
            rw [Option.some.injEq] at htw
            exact ⟨nm, by rw [← htw.2]⟩
          · exact absurd htw (by simp)
        · simp only [registerAndRename] at htw
          rw [Except.ok.injEq, Prod.mk.injEq] at htw
          rw [Option.some.injEq] at htw
          exact ⟨s.name, by rw [← htw.2]⟩

theorem c7_final_name_inj_witness :
    ('|' ∉ ("A").toList ∧ '|' ∉ ("b").toList ∧ '|' ∉ ("c").toList ∧
     mkFinalName (("A").toList) (("b").toList) (("c").toList) =
       mkFinalName (("A").toList) (("b").toList) (("c").toList) ∧
     (("A").toList = ("A").toList ∧ ("b").toList = ("b").toList ∧
      ("c").toList = ("c").toList)) ∧
    (tweakSnippet ⟨[], []⟩ ⟨("C").toList, ("p").toList, ("u").toList, ("n").toList,
        ("k").toList⟩).toOption.isSome = true ∧
    (∃ nm, (mkFinalName (collectionLabel ("C").toList) (("n").toList) (("k").toList)) =
      mkFinalName (collectionLabel ("C").toList) nm (("k").toList)) :=
  ⟨⟨by decide, by decide, by decide, rfl,
    c7_final_name_inj.1 (("A").toList) (("b").toList) (("c").toList)
      (("A").toList) (("b").toList) (("c").toList)
      (by decide) (by decide) (by decide) (by decide) (by decide) (by decide) rfl⟩,
   by decide, ⟨("n").toList, rfl⟩⟩

theorem hexVal_hexDig (n : Nat) (h : n < 16) : hexVal? (hexDig n) = some n := by
  interval_cases n <;> rfl

theorem parseStringBody_plain (k : Str) :
    ∀ rest : Str, (∀ c ∈ k, c ≠ '"' ∧ c ≠ '\\' ∧ 0x20 ≤ c.toNat) →
      parseStringBody (k ++ '"' :: rest) = some (k, rest) := by
  induction k with
  | nil => intro rest _; rw [parseStringBody.eq_def]; rfl
  | cons c cs ih =>
    intro rest hk
    obtain ⟨h1, h2, h3⟩ := hk c (List.mem_cons_self c cs)
    have hcs := fun x hx => hk x (List.mem_cons_of_mem c hx)
    rw [List.cons_append, parseStringBody.eq_def]
    show (if c = '"' then some ([], cs ++ '"' :: rest) else _) = _
    rw [if_neg h1]
    show (if c = '\\' then _ else _) = _
    rw [if_neg h2]
    show (if c.toNat < 0x20 then none else
      (parseStringBody (cs ++ '"' :: rest)).map (fun p => (c :: p.1, p.2))) = _
    rw [if_neg (by omega : ¬ c.toNat < 0x20), ih rest hcs]
    rfl

theorem parseStringBody_escape (s : Str) :
    ∀ rest : Str, parseStringBody (s.flatMap escChar ++ '"' :: rest) = some (s, rest) := by
  induction s with
  | nil => intro rest; rw [parseStringBody.eq_def]; rfl
  | cons c cs ih =>
    intro rest
    by_cases h1 : c = '"'
    · subst h1
      rw [parseStringBody.eq_def]
      show (parseStringBody (cs.flatMap escChar ++ '"' :: rest)).map
        (fun p => ('"' :: p.1, p.2)) = _
      rw [ih rest]; rfl
    by_cases h2 : c = '\\'
    · subst h2
      rw [parseStringBody.eq_def]
      show (parseStringBody (cs.flatMap escChar ++ '"' :: rest)).map
        (fun p => ('\\' :: p.1, p.2)) = _
      rw [ih rest]; rfl
    by_cases h3 : c = '\n'
    · subst h3
      rw [parseStringBody.eq_def]
      show (parseStringBody (cs.flatMap escChar ++ '"' :: rest)).map
        (fun p => ('\n' :: p.1, p.2)) = _
      rw [ih rest]; rfl
    by_cases h4 : c = '\t'
    · subst h4
      rw [parseStringBody.eq_def]
      show (parseStringBody (cs.flatMap escChar ++ '"' :: rest)).map
        (fun p => ('\t' :: p.1, p.2)) = _
      rw [ih rest]; rfl
    by_cases h5 : c = '\r'
    · subst h5
      rw [parseStringBody.eq_def]
      show (parseStringBody (cs.flatMap escChar ++ '"' :: rest)).map
        (fun p => ('\r' :: p.1, p.2)) = _
      rw [ih rest]; rfl
    by_cases h6 : c = '\x08'
    · subst h6
      rw [parseStringBody.eq_def]
      show (parseStringBody (cs.flatMap escChar ++ '"' :: rest)).map
        (fun p => ('\x08' :: p.1, p.2)) = _
      rw [ih rest]; rfl
    by_cases h7 : c = '\x0c'
    · subst h7
      rw [parseStringBody.eq_def]
      show (parseStringBody (cs.flatMap escChar ++ '"' :: rest)).map
        (fun p => ('\x0c' :: p.1, p.2)) = _
      rw [ih rest]; rfl
    by_cases hlt : c.toNat < 0x20
    · have hesc : escChar c =
          ['\\', 'u', '0', '0', hexDig (c.toNat / 16), hexDig (c.toNat % 16)] := by
        rw [escChar, if_neg h1, if_neg h2, if_neg h3, if_neg h4, if_neg h5, if_neg h6,
          if_neg h7, if_pos hlt]
      rw [List.flatMap_cons, hesc, List.append_assoc]
      rw [parseStringBody.eq_def]
      show (match hexVal? '0', hexVal? '0', hexVal? (hexDig (c.toNat / 16)),
          hexVal? (hexDig (c.toNat % 16)) with
        | some d1, some d2, some d3, some d4 =>
          if 0xd800 ≤ ((d1 * 16 + d2) * 16 + d3) * 16 + d4 ∧
              ((d1 * 16 + d2) * 16 + d3) * 16 + d4 ≤ 0xdfff then none
          else (parseStringBody (cs.flatMap escChar ++ '"' :: rest)).map
            (fun p : Str × Str =>
              (Char.ofNat (((d1 * 16 + d2) * 16 + d3) * 16 + d4) :: p.1, p.2))
        | _, _, _, _ => none) = _
      rw [hexVal_hexDig (c.toNat / 16) (by omega), hexVal_hexDig (c.toNat % 16) (by omega)]
      show (if 0xd800 ≤ ((0 * 16 + 0) * 16 + c.toNat / 16) * 16 + c.toNat % 16 ∧
          ((0 * 16 + 0) * 16 + c.toNat / 16) * 16 + c.toNat % 16 ≤ 0xdfff then none
        else (parseStringBody (cs.flatMap escChar ++ '"' :: rest)).map
          (fun p : Str × Str =>
            (Char.ofNat (((0 * 16 + 0) * 16 + c.toNat / 16) * 16 + c.toNat % 16)
              :: p.1, p.2))) = _
      have hz : ((0 * 16 + 0) * 16 + c.toNat / 16) * 16 + c.toNat % 16 = c.toNat := by omega
      rw [hz, if_neg (by omega), Char.ofNat_toNat, ih rest]
      rfl
    · have hesc : escChar c = [c] := by
        rw [escChar, if_neg h1, if_neg h2, if_neg h3, if_neg h4, if_neg h5, if_neg h6,
          if_neg h7, if_neg hlt]
      rw [List.flatMap_cons, hesc, List.append_assoc]
      show parseStringBody (c :: (cs.flatMap escChar ++ '"' :: rest)) = _
      rw [parseStringBody.eq_def]
      show (if c = '"' then some ([], cs.flatMap escChar ++ '"' :: rest) else _) = _
      rw [if_neg h1]
      show (if c = '\\' then _ else _) = _
      rw [if_neg h2]
      show (if c.toNat < 0x20 then none else
        (parseStringBody (cs.flatMap escChar ++ '"' :: rest)).map
          (fun p => (c :: p.1, p.2))) = _
      rw [if_neg hlt, ih rest]
      rfl

theorem parseCore_member_comma (f : Nat) (key val t : Str)
    (hk : ∀ c ∈ key, c ≠ '"' ∧ c ≠ '\\' ∧ 0x20 ≤ c.toNat) :
    parseCore (f + 1 + 1) true (memberSeg (("\n    ").toList) key val (',' :: t)) =
      match parseCore (f + 1) true t with
      | some (PV.mems ms, r5) => some (PV.mems ((key, JsonVal.str val) :: ms), r5)
      | _ => none := by
  have hv : parseCore (f + 1) false (' ' :: '"' :: (val.flatMap escChar ++ '"' :: (',' :: t))) =
      some (PV.val (JsonVal.str val), ',' :: t) := by
    rw [parseCore.eq_def]
    show (parseStringBody (val.flatMap escChar ++ '"' :: (',' :: t))).map
      (fun p : Str × Str => (PV.val (JsonVal.str p.1), p.2)) = _
    rw [parseStringBody_escape]
    rfl
  rw [parseCore.eq_def]
  show (match parseStringBody (key ++ '"' :: ':' :: ' ' :: '"' ::
      (val.flatMap escChar ++ '"' :: (',' :: t))) with
    | none => none
    | some (k, r1) =>
      match skipWs r1 with
      | ':' :: r2 =>
        match parseCore (f + 1) false r2 with
        | some (PV.val v, r3) =>
          match skipWs r3 with
          | ',' :: r4 =>
            match parseCore (f + 1) true r4 with
            | some (PV.mems ms, r5) => some (PV.mems ((k, v) :: ms), r5)
            | _ => none
          | '}' :: r4 => some (PV.mems [(k, v)], r4)
          | _ => none
        | _ => none
      | _ => none) = _
  rw [parseStringBody_plain key _ hk]
  show (match parseCore (f + 1) false (' ' :: '"' :: (val.flatMap escChar ++ '"' :: (',' :: t))) with
    | some (PV.val v, r3) =>
      match skipWs r3 with
      | ',' :: r4 =>
        match parseCore (f + 1) true r4 with
        | some (PV.mems ms, r5) => some (PV.mems ((key, v) :: ms), r5)
        | _ => none
      | '}' :: r4 => some (PV.mems [(key, v)], r4)
      | _ => none
    | _ => none) = _
  rw [hv]
  rfl

theorem parseCore_member_close (f : Nat) (key val t : Str)
    (hk : ∀ c ∈ key, c ≠ '"' ∧ c ≠ '\\' ∧ 0x20 ≤ c.toNat) :
    parseCore (f + 1 + 1) true
        (memberSeg (("\n    ").toList) key val (("\n  ").toList ++ '\x7d' :: t)) =
      some (PV.mems [(key, JsonVal.str val)], t) := by
  have hv : parseCore (f + 1) false
      (' ' :: '"' :: (val.flatMap escChar ++ '"' :: (("\n  ").toList ++ '\x7d' :: t))) =
      some (PV.val (JsonVal.str val), ("\n  ").toList ++ '\x7d' :: t) := by
    rw [parseCore.eq_def]
    show (parseStringBody (val.flatMap escChar ++ '"' :: (("\n  ").toList ++ '\x7d' :: t))).map
      (fun p : Str × Str => (PV.val (JsonVal.str p.1), p.2)) = _
    rw [parseStringBody_escape]
    rfl
  rw [parseCore.eq_def]
  show (match parseStringBody (key ++ '"' :: ':' :: ' ' :: '"' ::
      (val.flatMap escChar ++ '"' :: (("\n  ").toList ++ '\x7d' :: t))) with
    | none => none
    | some (k, r1) =>
      match skipWs r1 with
      | ':' :: r2 =>
        match parseCore (f + 1) false r2 with
        | some (PV.val v, r3) =>
          match skipWs r3 with
          | ',' :: r4 =>
            match parseCore (f + 1) true r4 with
            | some (PV.mems ms, r5) => some (PV.mems ((k, v) :: ms), r5)
            | _ => none
          | '}' :: r4 => some (PV.mems [(k, v)], r4)
          | _ => none
        | _ => none
      | _ => none) = _
  rw [parseStringBody_plain key _ hk]
  show (match parseCore (f + 1) false
      (' ' :: '"' :: (val.flatMap escChar ++ '"' :: (("\n  ").toList ++ '\x7d' :: t))) with
    | some (PV.val v, r3) =>
      match skipWs r3 with
      | ',' :: r4 =>
        match parseCore (f + 1) true r4 with
        | some (PV.mems ms, r5) => some (PV.mems ((key, v) :: ms), r5)
        | _ => none
      | '}' :: r4 => some (PV.mems [(key, v)], r4)
      | _ => none
    | _ => none) = _
  rw [hv]
  rfl

theorem parseCore_innerMembers (f : Nat) (r : Snippet) :
    parseCore (f + 1 + 1 + 1 + 1 + 1) true (innerMembers r) =
      some (PV.mems [(("snippet").toList, JsonVal.str r.snippet),
        (("uid").toList, JsonVal.str r.uid), (("name").toList, JsonVal.str r.name),
        (("keyword").toList, JsonVal.str r.keyword)], ("\n\x7d").toList) := by
  rw [innerMembers]
  rw [parseCore_member_comma (f + 1 + 1 + 1) _ _ _ (by decide)]
  rw [parseCore_member_comma (f + 1 + 1) _ _ _ (by decide)]
  rw [parseCore_member_comma (f + 1) _ _ _ (by decide)]
  rw [parseCore_member_close f _ _ _ (by decide)]

theorem parseCore_toJson (f : Nat) (r : Snippet) :
    parseCore (f + 1 + 1 + 1 + 1 + 1 + 1 + 1 + 1) false (toJsonText r) =
      some (PV.val (recordJson r), []) := by
  have hin := parseCore_innerMembers f r
  have hval : parseCore (f + 1 + 1 + 1 + 1 + 1 + 1) false (' ' :: '\x7b' :: innerMembers r) =
      some (PV.val (JsonVal.obj [(("snippet").toList, JsonVal.str r.snippet),
        (("uid").toList, JsonVal.str r.uid), (("name").toList, JsonVal.str r.name),
        (("keyword").toList, JsonVal.str r.keyword)]), ("\n\x7d").toList) := by
    rw [parseCore.eq_def]
    show (match parseCore (f + 1 + 1 + 1 + 1 + 1) true (innerMembers r) with
      | some (PV.mems ms, rr) => some (PV.val (JsonVal.obj ms), rr)
      | _ => none) = _
    rw [hin]
  have htop : parseCore (f + 1 + 1 + 1 + 1 + 1 + 1 + 1) true (topMembers r) =
      some (PV.mems [(("alfredsnippet").toList,
        JsonVal.obj [(("snippet").toList, JsonVal.str r.snippet),
          (("uid").toList, JsonVal.str r.uid), (("name").toList, JsonVal.str r.name),
          (("keyword").toList, JsonVal.str r.keyword)])], []) := by
    rw [parseCore.eq_def]
    show (match parseStringBody (("alfredsnippet").toList ++ '"' :: ':' :: ' ' ::
        '\x7b' :: innerMembers r) with
      | none => none
      | some (k, r1) =>
        match skipWs r1 with
        | ':' :: r2 =>
          match parseCore (f + 1 + 1 + 1 + 1 + 1 + 1) false r2 with
          | some (PV.val v, r3) =>
            match skipWs r3 with
            | ',' :: r4 =>
              match parseCore (f + 1 + 1 + 1 + 1 + 1 + 1) true r4 with
              | some (PV.mems ms, r5) => some (PV.mems ((k, v) :: ms), r5)
              | _ => none
            | '}' :: r4 => some (PV.mems [(k, v)], r4)
            | _ => none
          | _ => none
        | _ => none) = _
    rw [parseStringBody_plain _ _ (by decide)]
    show (match parseCore (f + 1 + 1 + 1 + 1 + 1 + 1) false (' ' :: '\x7b' :: innerMembers r) with
      | some (PV.val v, r3) =>
        match skipWs r3 with
        | ',' :: r4 =>
          match parseCore (f + 1 + 1 + 1 + 1 + 1 + 1) true r4 with
          | some (PV.mems ms, r5) => some (PV.mems (((("alfredsnippet").toList, v)) :: ms), r5)
          | _ => none
        | '}' :: r4 => some (PV.mems [((("alfredsnippet").toList, v))], r4)
        | _ => none
      | _ => none) = _
    rw [hval]
    rfl
  rw [parseCore.eq_def]
  show (match parseCore (f + 1 + 1 + 1 + 1 + 1 + 1 + 1) true (topMembers r) with
    | some (PV.mems ms, rr) => some (PV.val (JsonVal.obj ms), rr)
    | _ => none) = _
  rw [htop]
  rfl

theorem fromJson_toJson (r : Snippet) (c : Str) :
    fromJson (toJsonText r) c = some { r with collection := c } := by
  have h7 : 7 ≤ (toJsonText r).length := by
    simp [toJsonText, topMembers, List.length_append]
  have hlen : (toJsonText r).length + 1 =
      (toJsonText r).length - 7 + 1 + 1 + 1 + 1 + 1 + 1 + 1 + 1 := by omega
  rw [fromJson, hlen, parseValue, parseCore_toJson ((toJsonText r).length - 7) r]
  rfl

theorem fromJson_collection (t c : Str) (r : Snippet) (h : fromJson t c = some r) :
    r.collection = c := by
  rw [fromJson] at h
  repeat' split at h
  all_goals first
    | (rw [Option.some.injEq] at h; exact (congrArg Snippet.collection h).symm)
    | exact absurd h (by simp)

/-- **C9.** Round-trip: for every well-formed input record text `t` (one that
`Snippet.from_json` parses into a record `r` under collection `c`), serializing
`r` with `Snippet.to_json` and parsing the result again (with the same
collection) yields a record equal to `r` in all five fields: collection,
snippet payload, uid, name and keyword. -/
theorem c9_roundtrip (t c : Str) (r : Snippet) (h : fromJson t c = some r) :
    fromJson (toJsonText r) c = some r := by
  have hc : r.collection = c := fromJson_collection t c r h
  rw [fromJson_toJson r c, ← hc]

theorem c9_roundtrip_witness :
    fromJson (("\x7b\"alfredsnippet\": \x7b\"snippet\": \"s\", \"uid\": \"u\", \"name\": \"n\", \"keyword\": \"k\"\x7d\x7d").toList)
        (("X").toList) =
      some (Snippet.mk (("X").toList) (("s").toList) (("u").toList) (("n").toList) (("k").toList)) ∧
    fromJson
        (toJsonText (Snippet.mk (("X").toList) (("s").toList) (("u").toList) (("n").toList) (("k").toList)))
        (("X").toList) =
      some (Snippet.mk (("X").toList) (("s").toList) (("u").toList) (("n").toList) (("k").toList)) := by
  have h : fromJson (("\x7b\"alfredsnippet\": \x7b\"snippet\": \"s\", \"uid\": \"u\", \"name\": \"n\", \"keyword\": \"k\"\x7d\x7d").toList)
      (("X").toList) =
      some (Snippet.mk (("X").toList) (("s").toList) (("u").toList) (("n").toList) (("k").toList)) := by
    decide
  exact ⟨h, c9_roundtrip _ _ _ h⟩
